import Mathlib

/-!
Verification of `rslib/src/search/writer.rs` (Anki search-expression writer).

The module under verification renders a parsed search tree back to text
(`write_nodes` / `write_node` / `write_search_node` and leaf helpers), negates a
search string (`negate_search`), and concatenates search strings under a boolean
separator (`concatenate_searches`).  The text parser `parse` lives in a sibling
module that is not part of the sources; following the specification it is an
external collaborator, so the entry points below take the parser as an explicit
function argument, and theorems constrain it only through the parser output
contract stated in the specification.

Modelling conventions:
* Rust `String`/`&str` become Lean `String`; `str::replace`/`replacen` with the
  single-character patterns used by the source are modelled character-wise on
  `String.data` (valid because for single-char patterns byte-wise and
  character-wise replacement agree on UTF-8 text).
* `u8`/`u32` become `Nat`, `i32`/`i64` become `Int`.
* The `f32` payload of `PropertyKind::Ease` is kept abstract as its rendered
  decimal text (a `String`); no claim touches it.
* `Result<T>` becomes `Except ε T` with the parse-error type `ε` abstract.
* A Rust panic (`unreachable!()` in `negate_search`, the `v[0]` indexing in
  `concatenate_searches`) is modelled as the `Option` value `none` in the
  result type `Except ε (Option String)`.
-/

namespace AnkiSearchWriter

/-- `TemplateKind` from the parser module: a card template referenced by
ordinal or by name. -/
inductive TemplateKind
  | Ordinal (u : Nat)
  | Name (s : String)
  deriving DecidableEq

/-- `StateKind` from the parser module: the fixed 8-way review-state
enumeration. -/
inductive StateKind
  | New
  | Review
  | Learning
  | Due
  | Buried
  | UserBuried
  | SchedBuried
  | Suspended
  deriving DecidableEq

/-- `PropertyKind` from the parser module.  The `f32` payload of `Ease` is kept
abstract as its rendered decimal text. -/
inductive PropertyKind
  | Due (i : Int)
  | Interval (u : Nat)
  | Reps (u : Nat)
  | Lapses (u : Nat)
  | Ease (f : String)
  deriving DecidableEq

/-- `SearchNode` from the parser module: the leaf predicates of the search
tree.  Identifier newtypes (`DeckID`, `NoteTypeID`) are inlined as `Int`. -/
inductive SearchNode
  | UnqualifiedText (s : String)
  | SingleField (field : String) (text : String) ( is_re : Bool)
  | AddedInDays (u : Nat)
  | EditedInDays (u : Nat)
  | CardTemplate (t : TemplateKind)
  | Deck (s : String)
  | DeckID (i : Int)
  | NoteTypeID (i : Int)
  | NoteType (s : String)
  | Rated (days : Nat) (ease : Option Nat)
  | Tag (s : String)
  | Duplicates (note_type_id : Int) (text : String)
  | State (k : StateKind)
  | Flag (u : Nat)
  | NoteIDs (s : String)
  | CardIDs (s : String)
  | Property (operator : String) (kind : PropertyKind)
  | WholeCollection
  | Regex (s : String)
  | NoCombining (s : String)
  | WordBoundary (s : String)
  deriving DecidableEq

/-- `Node` from the parser module: the search-tree combinators over leaf
predicates.  A top-level query is a flattened, positionally interleaved
`List Node`. -/
inductive Node
  | And
  | Or
  | Not (n : Node)
  | Group (ns : List Node)
  | Search (n : SearchNode)

/-- The comparison `v[0] != Node::Search(SearchNode::WholeCollection)` from
`concatenate_searches`, as a test on a single node (equality against the
constant `Search(WholeCollection)`). -/
def isWholeCollectionNode : Node → Bool
  | Node.Search SearchNode.WholeCollection => true
  | _ => false

/-- Character-wise model of `str::replace(":", "\\:")`: escape every colon. -/
def escapeColonsChars : List Char → List Char
  | [] => []
  | c :: cs =>
    if c = ':' then '\\' :: ':' :: escapeColonsChars cs
    else c :: escapeColonsChars cs

/-- `s.replace(":", "\\:")` on strings. -/
def escape_colons (s : String) : String :=
  ⟨escapeColonsChars s.data⟩

/-- Character-wise model of `str::replacen(":", "\\:", 1)`: escape only the
first colon, leaving the rest of the string untouched. -/
def replacenColonChars : List Char → List Char
  | [] => []
  | c :: cs =>
    if c = ':' then '\\' :: ':' :: cs
    else c :: replacenColonChars cs

/-- `s.replacen(":", "\\:", 1)` on strings. -/
def replacen_colon (s : String) : String :=
  ⟨replacenColonChars s.data⟩

/-- Character-wise model of `str::replace("\"", "\\\"")`: escape every double
quote. -/
def escapeQuotesChars : List Char → List Char
  | [] => []
  | c :: cs =>
    if c = '"' then '\\' :: '"' :: escapeQuotesChars cs
    else c :: escapeQuotesChars cs

/-- `s.replace("\"", "\\\"")` on strings. -/
def escape_quotes (s : String) : String :=
  ⟨escapeQuotesChars s.data⟩

/-- `quote` from the source: escape embedded double quotes and wrap the whole
text in double quotes. -/
def quote (txt : String) : String :=
  "\"" ++ escape_quotes txt ++ "\""

/-- `write_single_field` from the source. -/
def write_single_field (field : String) (text : String) ( is_re : Bool) : String :=
  let re := if is_re then "re:" else ""
  let text' :=
    if !is_re && "re:".data.isPrefixOf text.data then replacen_colon text
    else text
  quote (escape_colons field ++ ":" ++ re ++ text')

/-- `write_template` from the source. -/
def write_template : TemplateKind → String
  | TemplateKind.Ordinal u => "\"card:" ++ toString u ++ "\""
  | TemplateKind.Name s => "\"card:" ++ s ++ "\""

/-- `write_rated` from the source. -/
def write_rated (days : Nat) (ease : Option Nat) : String :=
  match ease with
  | some u => "\"rated:" ++ toString days ++ ":" ++ toString u ++ "\""
  | none => "\"rated:" ++ toString days ++ "\""

/-- `write_state` from the source. -/
def write_state (kind : StateKind) : String :=
  "\"is:" ++
    (match kind with
     | StateKind.New => "new"
     | StateKind.Review => "review"
     | StateKind.Learning => "learn"
     | StateKind.Due => "due"
     | StateKind.Buried => "buried"
     | StateKind.UserBuried => "buried-manually"
     | StateKind.SchedBuried => "buried-sibling"
     | StateKind.Suspended => "suspended") ++ "\""

/-- `write_property` from the source. -/
def write_property (operator : String) : PropertyKind → String
  | PropertyKind.Due i => "\"prop:due" ++ operator ++ toString i ++ "\""
  | PropertyKind.Interval u => "\"prop:ivl" ++ operator ++ toString u ++ "\""
  | PropertyKind.Reps u => "\"prop:reps" ++ operator ++ toString u ++ "\""
  | PropertyKind.Lapses u => "\"prop:lapses" ++ operator ++ toString u ++ "\""
  | PropertyKind.Ease f => "\"prop:ease" ++ operator ++ f ++ "\""

/-- `write_search_node` from the source. -/
def write_search_node : SearchNode → String
  | SearchNode.UnqualifiedText s => quote (escape_colons s)
  | SearchNode.SingleField field text r => write_single_field field text r
  | SearchNode.AddedInDays u => "\"added:" ++ toString u ++ "\""
  | SearchNode.EditedInDays u => "\"edited:" ++ toString u ++ "\""
  | SearchNode.CardTemplate t => write_template t
  | SearchNode.Deck s => quote ("deck:" ++ s)
  | SearchNode.DeckID i => "\"did:" ++ toString i ++ "\""
  | SearchNode.NoteTypeID i => "\"mid:" ++ toString i ++ "\""
  | SearchNode.NoteType s => quote ("note:" ++ s)
  | SearchNode.Rated days ease => write_rated days ease
  | SearchNode.Tag s => quote ("tag:" ++ s)
  | SearchNode.Duplicates mid text => quote ("dupes:" ++ toString mid ++ "," ++ text)
  | SearchNode.State k => write_state k
  | SearchNode.Flag u => "\"flag:" ++ toString u ++ "\""
  | SearchNode.NoteIDs s => "\"nid:" ++ s ++ "\""
  | SearchNode.CardIDs s => "\"cid:" ++ s ++ "\""
  | SearchNode.Property operator kind => write_property operator kind
  | SearchNode.WholeCollection => ""
  | SearchNode.Regex s => quote ("re:" ++ s)
  | SearchNode.NoCombining s => quote ("nc:" ++ s)
  | SearchNode.WordBoundary s => quote ("w:" ++ s)

mutual

/-- `write_node` from the source. -/
def write_node : Node → String
  | Node.And => " AND "
  | Node.Or => " OR "
  | Node.Not n => "-" ++ write_node n
  | Node.Group ns => "(" ++ write_nodes ns ++ ")"
  | Node.Search n => write_search_node n

/-- `write_nodes` from the source: concatenate the renderings of a sequence of
nodes. -/
def write_nodes : List Node → String
  | [] => ""
  | n :: ns => write_node n ++ write_nodes ns

end

/-- Modelled from the spec: the integer code of the OR separator of the
`ConcatenateSearchesIn.Separator` protobuf enum, which is not among the
sources.  The specification says the separator "selects `Or` if it decodes to
the designated OR sentinel, otherwise defaults to `And` (including for any
unrecognized/out-of-range code)"; following protobuf convention the sentinel is
taken to be `1`. -/
def separatorOrCode : Int := 1

/-- The separator decoding of `concatenate_searches`: the single-element
`bool_node` sequence built from the wire code
(`if let Some(Separator::Or) = Separator::from_i32(sep) { Or } else { And }`). -/
def bool_node (sep : Int) : List Node :=
  [if sep = separatorOrCode then Node.Or else Node.And]

/-- `normalize_search` from the source, with the external parser passed as an
argument: parse, then serialize, propagating the parse error. -/
def normalize_search (parse : String → Except ε (List Node)) (input : String) :
    Except ε String :=
  (parse input).map write_nodes

/-- `negate_search` from the source, with the external parser passed as an
argument.  The `unreachable!()` arm (a single-element sequence holding a bare
`And`/`Or` marker) is modelled as the result `none`; every ordinary return is
`some`. -/
def negate_search (parse : String → Except ε (List Node)) (input : String) :
    Except ε (Option String) := do
  let nodes ← parse input
  match nodes with
  | [node] =>
    match node with
    | Node.Not n => pure (some (write_node n))
    | Node.Search SearchNode.WholeCollection => pure (some "")
    | Node.Group _ => pure (some (write_node (Node.Not node)))
    | Node.Search _ => pure (some (write_node (Node.Not node)))
    | _ => pure none
  | _ => pure (some (write_node (Node.Not (Node.Group nodes))))

/-- The filter predicate of `concatenate_searches`:
`|v| v[0] != Node::Search(SearchNode::WholeCollection)`.  The `[]` case is the
one where the Rust indexing `v[0]` would panic; `concatenate_searches` checks
for it separately (see below) so this branch is never relevant there. -/
def keepsSearch : List Node → Bool
  | n :: _ => ! isWholeCollectionNode n
  | [] => true

/-- `concatenate_searches` from the source, with the external parser passed as
an argument.  The Rust code first collects all parse results, short-circuiting
on the first error; it then filters with `v[0] != Search(WholeCollection)`,
where the indexing panics when some parsed sequence is empty — that panic is
modelled as the result `none`.  The surviving sequences are interspersed with
the single-element `bool_node` sequence, flattened, and rendered. -/
def concatenate_searches (parse : String → Except ε (List Node)) (sep : Int)
    (searches : List String) : Except ε (Option String) := do
  let parsed ← searches.mapM parse
  if parsed.all (fun v => ! v.isEmpty) then
    pure (some (write_nodes (((parsed.filter keepsSearch).intersperse
      (bool_node sep)).flatten)))
  else
    pure none

/-- Modelled from the spec: the external parser's output contract, stated in
§6 of the specification ("operator markers appear only between operand nodes")
and relied on by the writer: a parsed sequence is never empty, and a
single-element parsed sequence is never a bare `And`/`Or` operator marker. -/
def ParsedSequenceContract (v : List Node) : Prop :=
  v ≠ [] ∧ ∀ n, v = [n] → n ≠ Node.And ∧ n ≠ Node.Or

/-- Modelled from the spec: the whole-collection sentinel "is represented as
empty text" (§Glossary), i.e. it arises only as the entire parse of a blank
query, never as one operand among several: a parsed sequence whose first
element is `Search(WholeCollection)` is exactly the single-element sequence
`[Search(WholeCollection)]`. -/
def WholeCollectionAloneContract (v : List Node) : Prop :=
  v.head? = some (Node.Search SearchNode.WholeCollection) →
    v = [Node.Search SearchNode.WholeCollection]

/-- The removal predicate exactly as the specification words it: the parsed
sequence is precisely the single-element `[Search(WholeCollection)]`.  Compared
below with the source's first-element test `keepsSearch`. -/
def isWholeCollectionOnly : List Node → Bool
  | [Node.Search SearchNode.WholeCollection] => true
  | _ => false

/-- Modelled from the spec: a finite fragment of the external parser
(`rslib/src/search/parser.rs` is not among the sources), fixing the parses of
the concrete inputs appearing in the specification's test cases, faithful to
its conventions: blank text parses to the whole-collection sentinel (§Glossary:
"represented as empty text"), search terms parse to the corresponding leaves,
a leading `-` parses to `Not`, and `AND` is a positional operator marker. -/
def demoTable : List (String × List Node) :=
  [ ("", [Node.Search SearchNode.WholeCollection]),
    ("deck:foo", [Node.Search (SearchNode.Deck "foo")]),
    ("\"tag:a\"", [Node.Search (SearchNode.Tag "a")]),
    ("\"tag:b\"", [Node.Search (SearchNode.Tag "b")]),
    ("-\"tag:a\"", [Node.Not (Node.Search (SearchNode.Tag "a"))]),
    ("\"tag:a\" AND \"tag:b\"",
      [Node.Search (SearchNode.Tag "a"), Node.And,
        Node.Search (SearchNode.Tag "b")]) ]

/-- Modelled from the spec: the finite parser fragment as a function; an input
outside the fragment fails, with the input itself standing in for the
structured parse error. -/
def demoParse (s : String) : Except String (List Node) :=
  match demoTable.lookup s with
  | some v => Except.ok v
  | none => Except.error s

/-- Decidable version of `ParsedSequenceContract`. -/
def contractHolds : List Node → Bool
  | [] => false
  | [Node.And] => false
  | [Node.Or] => false
  | _ => true

/-- A successful association-list lookup returns one of the stored values. -/
theorem lookup_mem_values {α β : Type} [BEq α] {a : α} :
    ∀ {l : List (α × β)} {b : β}, l.lookup a = some b → b ∈ l.map Prod.snd := by
  intro l
  induction l with
  | nil => intro b h; simp [List.lookup] at h
  | cons p t ih =>
    intro b h
    obtain ⟨k, v⟩ := p
    rw [List.lookup] at h
    cases hk : (a == k) with
    | true => rw [hk] at h; injection h with h; simp [h]
    | false => rw [hk] at h; simpa using Or.inr (ih h)

theorem contractHolds_sound (v : List Node) (hv : contractHolds v = true) :
    ParsedSequenceContract v := by
  constructor
  · intro he; subst he; simp [contractHolds] at hv
  · intro n hn
    subst hn
    cases n <;> simp_all [contractHolds]

/-- Every successful output of the fragment parser satisfies the parser output
contract. -/
theorem demoParse_contract (t : String) (v : List Node)
    (h : demoParse t = Except.ok v) : ParsedSequenceContract v := by
  unfold demoParse at h
  cases hl : demoTable.lookup t with
  | none => rw [hl] at h; exact absurd h (by simp)
  | some w =>
    rw [hl] at h
    injection h with h
    subst h
    have hmem := lookup_mem_values hl
    simp [demoTable] at hmem
    rcases hmem with rfl | rfl | rfl | rfl | rfl | rfl <;>
      exact contractHolds_sound _ rfl

/-- A quote-free character list passes through the quote escaper unchanged. -/
theorem escapeQuotesChars_of_not_mem {l : List Char} (h : '"' ∉ l) :
    escapeQuotesChars l = l := by
  induction l with
  | nil => rfl
  | cons c cs ih =>
    rw [List.mem_cons, not_or] at h
    rw [escapeQuotesChars, if_neg (fun hc => h.1 hc.symm), ih h.2]

/-- The quote escaper rewrites the first double quote after a quote-free
prefix into backslash-quote, leaving the prefix unchanged. -/
theorem escapeQuotesChars_append {l₁ : List Char} (l₂ : List Char)
    (h : '"' ∉ l₁) :
    escapeQuotesChars (l₁ ++ '"' :: l₂)
      = l₁ ++ '\\' :: '"' :: escapeQuotesChars l₂ := by
  induction l₁ with
  | nil => rw [List.nil_append, escapeQuotesChars, if_pos rfl, List.nil_append]
  | cons c cs ih =>
    rw [List.mem_cons, not_or] at h
    rw [List.cons_append, escapeQuotesChars, if_neg (fun hc => h.1 hc.symm),
      ih h.2, List.cons_append]

/-- On backslash-free text, the quote escaper emits exactly one backslash per
double quote. -/
theorem count_escapeQuotesChars (l : List Char) (h : l.count '\\' = 0) :
    (escapeQuotesChars l).count '\\' = l.count '"' := by
  induction l with
  | nil => rfl
  | cons c cs ih =>
    rw [List.count_cons] at h
    have hc : ¬ (c = '\\') := by
      intro hc
      simp [hc] at h
    have hcs : cs.count '\\' = 0 := by
      rcases Nat.add_eq_zero.mp h with ⟨h1, _⟩
      exact h1
    by_cases hq : c = '"'
    · subst hq
      rw [escapeQuotesChars, if_pos rfl]
      simp [List.count_cons, ih hcs]
    · rw [escapeQuotesChars, if_neg hq]
      simp only [List.count_cons, ih hcs]
      simp [hq, hc]

/-- C8.  `quote` wraps its argument in double quotes; embedded double quotes
each become exactly one backslash followed by the quote, the surrounding text
is left unchanged, and on backslash-free text the number of emitted backslashes
equals the number of embedded quotes, so no character is double-escaped. -/
theorem quote_escapes_each_quote_once (t : String) (l₁ l₂ : List Char)
    (h₁ : '"' ∉ l₁) (h₂ : l₂.count '\\' = 0) :
    quote t = ⟨'"' :: (escapeQuotesChars t.data ++ ['"'])⟩ ∧
    escapeQuotesChars (l₁ ++ '"' :: l₂)
      = l₁ ++ '\\' :: '"' :: escapeQuotesChars l₂ ∧
    (escapeQuotesChars l₂).count '\\' = l₂.count '"' ∧
    quote "a\"b" = "\"a\\\"b\"" := by
  refine ⟨?_, escapeQuotesChars_append l₂ h₁, count_escapeQuotesChars l₂ h₂, ?_⟩
  · apply String.ext
    simp [quote, escape_quotes]
  · rfl

/-- C8 witness at `t = "a\"b"`, `l₁ = ['a']`, `l₂ = ['b']`. -/
theorem quote_escapes_each_quote_once_witness :
    quote "a\"b" = ⟨'"' :: (escapeQuotesChars "a\"b".data ++ ['"'])⟩ ∧
    escapeQuotesChars (['a'] ++ '"' :: ['b'])
      = ['a'] ++ '\\' :: '"' :: escapeQuotesChars ['b'] ∧
    (escapeQuotesChars ['b']).count '\\' = List.count '"' ['b'] ∧
    quote "a\"b" = "\"a\\\"b\"" :=
  quote_escapes_each_quote_once "a\"b" ['a'] ['b'] (by decide) (by decide)

/-- C9.  The template-name leaf inserts its payload verbatim between `card:`
and the closing double quote — no escaping at all, in contrast with the
quote-escaped rendering `quote ("card:" ++ s)` used by string-bearing leaves,
from which it differs as soon as the payload contains a double quote. -/
theorem template_name_unescaped (s : String) :
    write_template (TemplateKind.Name s) = "\"card:" ++ s ++ "\"" ∧
    write_template (TemplateKind.Name "a\"b") = "\"card:a\"b\"" ∧
    write_template (TemplateKind.Name "a\"b") ≠ quote ("card:" ++ "a\"b") := by
  refine ⟨rfl, rfl, ?_⟩
  intro h
  have := congrArg String.data h
  simp [write_template, quote, escape_quotes, escapeQuotesChars] at this

/-- `replacen(":", "\\:", 1)` on a text starting with `re:` escapes exactly the
colon of that prefix and leaves the remainder untouched. -/
theorem replacenColonChars_re (l : List Char) :
    replacenColonChars ('r' :: 'e' :: ':' :: l)
      = 'r' :: 'e' :: '\\' :: ':' :: l := by
  rw [replacenColonChars, if_neg (by decide), replacenColonChars,
    if_neg (by decide), replacenColonChars, if_pos rfl]

/-- String-level form of `replacenColonChars_re`. -/
theorem replacen_colon_re (u : String) :
    replacen_colon ("re:" ++ u) = "re\\:" ++ u := by
  apply String.ext
  show replacenColonChars (("re:" ++ u) : String).data
    = (("re\\:" ++ u) : String).data
  rw [String.data_append, String.data_append]
  exact replacenColonChars_re u.data

/-- Appending anything to a text that starts with `re:` keeps the `re:`
prefix. -/
theorem isPrefixOf_re (u : String) :
    List.isPrefixOf "re:".data (("re:" ++ u) : String).data = true := by
  rw [String.data_append, List.isPrefixOf_iff_prefix]
  exact List.prefix_append _ _

/-- C3.  `write_single_field` always escapes every colon of the field name;
with `is_re` set it emits the literal `re:` and the text verbatim; with
`is_re` unset and a text starting with `re:` it escapes only the first colon
of the text, leaving every later colon of the text untouched; the spec's
example `field "Front", text "re:abc", is_re false` renders as the quoted
token `"Front:re\:abc"`. -/
theorem single_field_escaping (field t₁ u t₂ : String)
    (hnp : ¬ List.isPrefixOf "re:".data t₂.data = true) :
    write_single_field field t₁ true
      = quote (escape_colons field ++ ":" ++ "re:" ++ t₁) ∧
    write_single_field field ("re:" ++ u) false
      = quote (escape_colons field ++ ":" ++ "re\\:" ++ u) ∧
    write_single_field field t₂ false
      = quote (escape_colons field ++ ":" ++ t₂) ∧
    write_single_field "Front" "re:abc" false = "\"Front:re\\:abc\"" ∧
    write_single_field "a:b" "t" false = "\"a\\:b:t\"" := by
  refine ⟨?_, ?_, ?_, by decide, by decide⟩
  · simp [write_single_field]
  · simp only [write_single_field, Bool.not_false, Bool.true_and,
      isPrefixOf_re, if_pos, replacen_colon_re]
    congr 1
    apply String.ext
    simp [String.data_append]
  · simp only [write_single_field, Bool.not_false, Bool.true_and]
    rw [if_neg hnp]
    congr 1
    apply String.ext
    simp [String.data_append]

/-- C3 witness at `field = "Front"`, `t₁ = "x"`, `u = "a:b"`,
`t₂ = "plain:text"`. -/
theorem single_field_escaping_witness :
    write_single_field "Front" "x" true
      = quote (escape_colons "Front" ++ ":" ++ "re:" ++ "x") ∧
    write_single_field "Front" ("re:" ++ "a:b") false
      = quote (escape_colons "Front" ++ ":" ++ "re\\:" ++ "a:b") ∧
    write_single_field "Front" "plain:text" false
      = quote (escape_colons "Front" ++ ":" ++ "plain:text") ∧
    write_single_field "Front" "re:abc" false = "\"Front:re\\:abc\"" ∧
    write_single_field "a:b" "t" false = "\"a\\:b:t\"" :=
  single_field_escaping "Front" "x" "a:b" "plain:text" (by decide)

/-- C5.  Negating any input that parses to the single-element sequence
`[Search(WholeCollection)]` yields the empty string; in particular
`negate("") = ""` under the fragment parser, for which blank text is the
whole-collection sentinel. -/
theorem negate_whole_collection {ε : Type} (parse : String → Except ε (List Node))
    (s : String)
    (h : parse s = Except.ok [Node.Search SearchNode.WholeCollection]) :
    negate_search parse s = Except.ok (some "") ∧
    negate_search demoParse "" = Except.ok (some "") := by
  constructor
  · simp [negate_search, h, Bind.bind, Except.bind, Pure.pure, Except.pure]
  · rfl

/-- C5 witness: the fragment parser at the empty string. -/
theorem negate_whole_collection_witness :
    negate_search demoParse "" = Except.ok (some "") ∧
    negate_search demoParse "" = Except.ok (some "") :=
  negate_whole_collection demoParse "" (by rfl)

/-- C6.  Negating any input that parses to a sequence of more than one node
wraps the whole sequence in a single group and negates that group. -/
theorem negate_compound {ε : Type} (parse : String → Except ε (List Node))
    (s : String) (nodes : List Node) (h : parse s = Except.ok nodes)
    (hlen : 1 < nodes.length) :
    negate_search parse s
      = Except.ok (some (write_node (Node.Not (Node.Group nodes)))) := by
  match nodes, hlen with
  | x :: y :: rest, _ => simp [negate_search, h, Bind.bind, Except.bind, Pure.pure, Except.pure]

/-- C6 witness: the fragment parser on a three-node conjunction. -/
theorem negate_compound_witness :
    negate_search demoParse "\"tag:a\" AND \"tag:b\""
      = Except.ok (some (write_node (Node.Not (Node.Group
          [Node.Search (SearchNode.Tag "a"), Node.And,
            Node.Search (SearchNode.Tag "b")])))) :=
  negate_compound demoParse "\"tag:a\" AND \"tag:b\""
    [Node.Search (SearchNode.Tag "a"), Node.And,
      Node.Search (SearchNode.Tag "b")] (by rfl) (by decide)

/-- C2.  For a parse-able single-predicate input whose node is a `Group` or a
non-`WholeCollection` `Search`, negating twice equals normalizing, provided the
parser round-trips the rendering of the negation (the specification's
round-trip property) to a `Not` node with the same rendering; and negating a
single-element `Not(inner)` returns the rendering of `inner` without
re-wrapping it. -/
theorem negate_negate_normalize {ε : Type} (parse : String → Except ε (List Node))
    (s s₂ : String) (x y inner : Node)
    (hx : parse s = Except.ok [x])
    (hshape : (∃ ns, x = Node.Group ns) ∨
      ∃ n, x = Node.Search n ∧ n ≠ SearchNode.WholeCollection)
    (hy : parse (write_node (Node.Not x)) = Except.ok [Node.Not y])
    (hyx : write_node y = write_node x)
    (hnot : parse s₂ = Except.ok [Node.Not inner]) :
    negate_search parse s = Except.ok (some (write_node (Node.Not x))) ∧
    negate_search parse (write_node (Node.Not x))
      = Except.ok (some (write_node x)) ∧
    normalize_search parse s = Except.ok (write_node x) ∧
    negate_search parse s₂ = Except.ok (some (write_node inner)) := by
  refine ⟨?_, ?_, ?_, ?_⟩
  · rcases hshape with ⟨ns, rfl⟩ | ⟨n, rfl, hn⟩
    · simp [negate_search, hx, Bind.bind, Except.bind, Pure.pure, Except.pure]
    · cases n <;>
        simp_all [negate_search, hx, Bind.bind, Except.bind, Pure.pure,
          Except.pure]
  · simp [negate_search, hy, Bind.bind, Except.bind, Pure.pure, Except.pure,
      hyx]
  · simp [normalize_search, hx, Except.map, write_nodes]
  · simp [negate_search, hnot, Bind.bind, Except.bind, Pure.pure, Except.pure]

/-- C2 witness: under the fragment parser, `negate(negate("\"tag:a\""))` and
`normalize("\"tag:a\"")` coincide, and `negate("-\"tag:a\"")` unwraps the
negation. -/
theorem negate_negate_normalize_witness :
    negate_search demoParse "\"tag:a\""
      = Except.ok (some (write_node (Node.Not (Node.Search (SearchNode.Tag "a"))))) ∧
    negate_search demoParse (write_node (Node.Not (Node.Search (SearchNode.Tag "a"))))
      = Except.ok (some (write_node (Node.Search (SearchNode.Tag "a")))) ∧
    normalize_search demoParse "\"tag:a\""
      = Except.ok (write_node (Node.Search (SearchNode.Tag "a"))) ∧
    negate_search demoParse "-\"tag:a\""
      = Except.ok (some (write_node (Node.Search (SearchNode.Tag "a")))) :=
  negate_negate_normalize demoParse "\"tag:a\"" "-\"tag:a\""
    (Node.Search (SearchNode.Tag "a")) (Node.Search (SearchNode.Tag "a"))
    (Node.Search (SearchNode.Tag "a")) (by rfl)
    (Or.inr ⟨SearchNode.Tag "a", rfl, by decide⟩) (by rfl) rfl (by rfl)

/-- `write_nodes` is a homomorphism from sequence concatenation to string
concatenation. -/
theorem write_nodes_append (a b : List Node) :
    write_nodes (a ++ b) = write_nodes a ++ write_nodes b := by
  induction a with
  | nil => rw [List.nil_append, write_nodes, String.empty_append]
  | cons n ns ih =>
    rw [List.cons_append, write_nodes, write_nodes, ih, String.append_assoc]

theorem intercalate_go_append (s : String) :
    ∀ (l : List String) (p q : String),
      String.intercalate.go (p ++ q) s l = p ++ String.intercalate.go q s l := by
  intro l
  induction l with
  | nil => intro p q; rfl
  | cons a as ih =>
    intro p q
    show String.intercalate.go (p ++ q ++ s ++ a) s as = _
    rw [String.append_assoc p q s, String.append_assoc p (q ++ s) a, ih]
    rfl

theorem intercalate_cons_cons (s a b : String) (l : List String) :
    String.intercalate s (a :: b :: l)
      = a ++ s ++ String.intercalate s (b :: l) := by
  show String.intercalate.go (a ++ s ++ b) s l
    = a ++ s ++ String.intercalate.go b s l
  exact intercalate_go_append s l (a ++ s) b

/-- Rendering the flattening of expression sequences interspersed with the
separator sequence equals intercalating the rendered separator strictly
between the rendered expressions. -/
theorem write_nodes_intersperse (b : List Node) :
    ∀ l : List (List Node),
      write_nodes ((l.intersperse b).flatten)
        = String.intercalate (write_nodes b) (l.map write_nodes)
  | [] => rfl
  | [v] => by
    rw [List.intersperse_singleton, List.map_cons, List.map_nil,
      List.flatten_cons, List.flatten_nil, List.append_nil]
    exact rfl
  | v :: w :: rest => by
    simp only [List.intersperse_cons_cons, List.flatten_cons, List.map_cons,
      write_nodes_append, write_nodes_intersperse b (w :: rest)]
    rw [intercalate_cons_cons, String.append_assoc]

/-- Each element of a successful `mapM` output is a successful application of
the function to some input. -/
theorem mapM_ok_mem {ε α β : Type} (f : α → Except ε β) :
    ∀ (l : List α) (res : List β), l.mapM f = Except.ok res →
      ∀ b ∈ res, ∃ a, f a = Except.ok b := by
  intro l
  induction l with
  | nil =>
    intro res h b hb
    rw [List.mapM_nil] at h
    injection h with h
    subst h
    simp at hb
  | cons a as ih =>
    intro res h b hb
    rw [List.mapM_cons] at h
    cases hfa : f a with
    | error e => rw [hfa] at h; simp [Bind.bind, Except.bind] at h
    | ok v =>
      rw [hfa] at h
      cases hrest : as.mapM f with
      | error e => rw [hrest] at h; simp [Bind.bind, Except.bind] at h
      | ok vs =>
        rw [hrest] at h
        simp [Bind.bind, Except.bind, Pure.pure, Except.pure] at h
        subst h
        rcases List.mem_cons.mp hb with rfl | hb2
        · exact ⟨a, hfa⟩
        · exact ih vs hrest b hb2

/-- `mapM` short-circuits: with every earlier input succeeding and one input
failing, the whole run returns that first failure, whatever comes after. -/
theorem mapM_error_of_first {ε α β : Type} (f : α → Except ε β) (e : ε) :
    ∀ (pre : List α) (s : α) (post : List α),
      (∀ t ∈ pre, ∃ v, f t = Except.ok v) → f s = Except.error e →
      (pre ++ s :: post).mapM f = Except.error e := by
  intro pre
  induction pre with
  | nil =>
    intro s post _ hs
    rw [List.nil_append, List.mapM_cons, hs]
    simp [Bind.bind, Except.bind]
  | cons a as ih =>
    intro s post hpre hs
    obtain ⟨v, hv⟩ := hpre a (List.mem_cons_self a as)
    have hrest := ih s post (fun t ht => hpre t (List.mem_cons_of_mem a ht)) hs
    rw [List.cons_append, List.mapM_cons, hv, hrest]
    simp [Bind.bind, Except.bind]

/-- Sequences satisfying the nonemptiness contract pass the emptiness check of
`concatenate_searches`. -/
theorem all_not_isEmpty {parsed : List (List Node)}
    (hne : ∀ v ∈ parsed, v ≠ []) :
    parsed.all (fun v => ! v.isEmpty) = true := by
  rw [List.all_eq_true]
  intro v hv
  match v, hne v hv with
  | a :: b, _ => rfl
  | [], h => exact absurd rfl h

/-- On sequences satisfying the parser contract, the source's first-element
test agrees with the specification's exact-sequence test. -/
theorem keepsSearch_eq (v : List Node) (hne : v ≠ [])
    (hwc : WholeCollectionAloneContract v) :
    keepsSearch v = ! isWholeCollectionOnly v := by
  match v, hne with
  | n :: rest, _ =>
    cases n with
    | And => cases rest <;> rfl
    | Or => cases rest <;> rfl
    | Not m => cases rest <;> rfl
    | Group ns => cases rest <;> rfl
    | Search sn =>
      cases sn
      case WholeCollection =>
        have h := hwc rfl
        have h2 : rest = [] := by injection h
        subst h2
        rfl
      all_goals cases rest <;> rfl

/-- The spec-side predicate holds exactly at the single-element
whole-collection sequence. -/
theorem isWholeCollectionOnly_iff (v : List Node) :
    isWholeCollectionOnly v = true
      ↔ v = [Node.Search SearchNode.WholeCollection] := by
  match v with
  | [] => simp [isWholeCollectionOnly]
  | n :: r :: rs => cases n <;> simp [isWholeCollectionOnly]
  | [n] =>
    cases n with
    | And => simp [isWholeCollectionOnly]
    | Or => simp [isWholeCollectionOnly]
    | Not m => simp [isWholeCollectionOnly]
    | Group ns => simp [isWholeCollectionOnly]
    | Search sn => cases sn <;> simp [isWholeCollectionOnly]

/-- C1.  In `concatenate_searches`, exactly the parsed expressions whose
sequence is the single-element `[Search(WholeCollection)]` are removed before
interleaving: on contract-satisfying parses, the source's first-element filter
coincides with filtering by the specification's exact-sequence predicate, and
the concatenation renders the expressions surviving that exact filter. -/
theorem concat_removes_exactly_whole_collection {ε : Type}
    (parse : String → Except ε (List Node)) (sep : Int)
    (searches : List String) (parsed : List (List Node))
    (hp : searches.mapM parse = Except.ok parsed)
    (hne : ∀ v ∈ parsed, v ≠ [])
    (hwc : ∀ v ∈ parsed, WholeCollectionAloneContract v) :
    parsed.filter keepsSearch
      = parsed.filter (fun v => ! isWholeCollectionOnly v) ∧
    concatenate_searches parse sep searches
      = Except.ok (some (write_nodes (((parsed.filter
          (fun v => ! isWholeCollectionOnly v)).intersperse
            (bool_node sep)).flatten))) := by
  have hfilter : parsed.filter keepsSearch
      = parsed.filter (fun v => ! isWholeCollectionOnly v) :=
    List.filter_congr (fun v hv => keepsSearch_eq v (hne v hv) (hwc v hv))
  refine ⟨hfilter, ?_⟩
  rw [concatenate_searches, hp]
  simp [Bind.bind, Except.bind, Pure.pure, Except.pure,
    all_not_isEmpty hne, hfilter]

/-- C1 witness on `concatenate(AND, ["deck:foo", ""])` under the fragment
parser. -/
theorem concat_removes_exactly_whole_collection_witness :
    ([[Node.Search (SearchNode.Deck "foo")],
        [Node.Search SearchNode.WholeCollection]].filter keepsSearch
      = [[Node.Search (SearchNode.Deck "foo")],
          [Node.Search SearchNode.WholeCollection]].filter
          (fun v => ! isWholeCollectionOnly v)) ∧
    concatenate_searches demoParse 0 ["deck:foo", ""]
      = Except.ok (some (write_nodes ((([[Node.Search (SearchNode.Deck "foo")],
          [Node.Search SearchNode.WholeCollection]].filter
            (fun v => ! isWholeCollectionOnly v)).intersperse
              (bool_node 0)).flatten))) :=
  concat_removes_exactly_whole_collection demoParse 0 ["deck:foo", ""]
    [[Node.Search (SearchNode.Deck "foo")],
      [Node.Search SearchNode.WholeCollection]] (by rfl)
    (by
      intro v hv
      rcases List.mem_cons.mp hv with rfl | hv2
      · simp
      · rcases List.mem_singleton.mp hv2 with rfl
        simp)
    (by
      intro v hv
      rcases List.mem_cons.mp hv with rfl | hv2
      · intro h
        simp at h
      · rcases List.mem_singleton.mp hv2 with rfl
        intro _
        rfl)

/-- C4.  `concatenate_searches` renders the separator strictly between each
pair of surviving expressions (never before the first, never after the last):
the result is the intercalation of the rendered separator over the surviving
renderings, which is `""` on zero survivors, the lone rendering itself (no
added grouping) on one survivor, and in particular
`concatenate(AND, ["deck:foo", ""]) = "\"deck:foo\""` and
`concatenate(AND, ["", ""]) = ""` under the fragment parser. -/
theorem concat_separator_between {ε : Type}
    (parse : String → Except ε (List Node)) (sep : Int)
    (searches : List String) (parsed : List (List Node)) (w : String)
    (hp : searches.mapM parse = Except.ok parsed)
    (hne : ∀ v ∈ parsed, v ≠ []) :
    concatenate_searches parse sep searches
      = Except.ok (some (String.intercalate (write_nodes (bool_node sep))
          ((parsed.filter keepsSearch).map write_nodes))) ∧
    String.intercalate (write_nodes (bool_node sep)) [] = "" ∧
    String.intercalate (write_nodes (bool_node sep)) [w] = w ∧
    concatenate_searches demoParse 0 ["deck:foo", ""]
      = Except.ok (some "\"deck:foo\"") ∧
    concatenate_searches demoParse 0 ["", ""] = Except.ok (some "") := by
  refine ⟨?_, rfl, rfl, by rfl, by rfl⟩
  rw [concatenate_searches, hp]
  simp [Bind.bind, Except.bind, Pure.pure, Except.pure,
    all_not_isEmpty hne, write_nodes_intersperse]

/-- C4 witness on `concatenate(AND, ["deck:foo", ""])` under the fragment
parser. -/
theorem concat_separator_between_witness :
    (concatenate_searches demoParse 0 ["deck:foo", ""]
      = Except.ok (some (String.intercalate (write_nodes (bool_node 0))
          (([[Node.Search (SearchNode.Deck "foo")],
            [Node.Search SearchNode.WholeCollection]].filter
              keepsSearch).map write_nodes)))) ∧
    String.intercalate (write_nodes (bool_node 0)) [] = "" ∧
    String.intercalate (write_nodes (bool_node 0)) ["\"deck:foo\""]
      = "\"deck:foo\"" ∧
    concatenate_searches demoParse 0 ["deck:foo", ""]
      = Except.ok (some "\"deck:foo\"") ∧
    concatenate_searches demoParse 0 ["", ""] = Except.ok (some "") :=
  concat_separator_between demoParse 0 ["deck:foo", ""]
    [[Node.Search (SearchNode.Deck "foo")],
      [Node.Search SearchNode.WholeCollection]] "\"deck:foo\"" (by rfl)
    (by
      intro v hv
      rcases List.mem_cons.mp hv with rfl | hv2
      · simp
      · rcases List.mem_singleton.mp hv2 with rfl
        simp)

/-- C7.  When some input fails to parse, `concatenate_searches` returns the
parse error of the first failing input in list order, short-circuiting: no
partial concatenation is produced, and the inputs after the failure (here the
arbitrary `post`) do not influence the result. -/
theorem concat_error_short_circuit {ε : Type}
    (parse : String → Except ε (List Node)) (sep : Int)
    (pre : List String) (s : String) (post : List String) (e : ε)
    (hpre : ∀ t ∈ pre, ∃ v, parse t = Except.ok v)
    (hs : parse s = Except.error e) :
    concatenate_searches parse sep (pre ++ s :: post) = Except.error e := by
  have hmap := mapM_error_of_first parse e pre s post hpre hs
  rw [concatenate_searches, hmap]
  simp [Bind.bind, Except.bind]

/-- C7 witness: the unparseable `"###"` fails first, the later input is
ignored. -/
theorem concat_error_short_circuit_witness :
    concatenate_searches demoParse 0 (["deck:foo"] ++ "###" :: ["@@@"])
      = Except.error "###" :=
  concat_error_short_circuit demoParse 0 ["deck:foo"] "###" ["@@@"] "###"
    (by
      intro t ht
      rcases List.mem_singleton.mp ht with rfl
      exact ⟨[Node.Search (SearchNode.Deck "foo")], rfl⟩)
    (by rfl)

/-- C10.  Under the parser output contract every panicking branch is
unreachable: `negate_search` never reaches its `unreachable!()` arm and
`concatenate_searches` never fails its `v[0]` indexing (the panic model `none`
is never returned); rendering itself is a total function by construction. -/
theorem rendering_never_panics {ε : Type}
    (parse : String → Except ε (List Node))
    (hcontract : ∀ t v, parse t = Except.ok v → ParsedSequenceContract v)
    (s : String) (sep : Int) (searches : List String) :
    negate_search parse s ≠ Except.ok none ∧
    concatenate_searches parse sep searches ≠ Except.ok none := by
  constructor
  · intro hbad
    cases hps : parse s with
    | error e =>
      rw [negate_search, hps] at hbad
      simp [Bind.bind, Except.bind] at hbad
    | ok nodes =>
      obtain ⟨hne, hsingle⟩ := hcontract s nodes hps
      match nodes, hne, hsingle with
      | [], hne2, _ => exact hne2 rfl
      | [n], _, hsingle2 =>
        obtain ⟨hna, hno⟩ := hsingle2 n rfl
        rw [negate_search, hps] at hbad
        cases n with
        | And => exact hna rfl
        | Or => exact hno rfl
        | Not m => simp [Bind.bind, Except.bind, Pure.pure, Except.pure] at hbad
        | Group ns => simp [Bind.bind, Except.bind, Pure.pure, Except.pure] at hbad
        | Search sn =>
          cases sn <;>
            simp [Bind.bind, Except.bind, Pure.pure, Except.pure] at hbad
      | x :: y :: rest, _, _ =>
        rw [negate_search, hps] at hbad
        simp [Bind.bind, Except.bind, Pure.pure, Except.pure] at hbad
  · intro hbad
    cases hm : searches.mapM parse with
    | error e =>
      rw [concatenate_searches, hm] at hbad
      simp [Bind.bind, Except.bind] at hbad
    | ok parsed =>
      have hne : ∀ v ∈ parsed, v ≠ [] := by
        intro v hv
        obtain ⟨t, ht⟩ := mapM_ok_mem parse searches parsed hm v hv
        exact (hcontract t v ht).1
      rw [concatenate_searches, hm] at hbad
      simp [Bind.bind, Except.bind, Pure.pure, Except.pure,
        all_not_isEmpty hne] at hbad

/-- C10 witness under the fragment parser, which satisfies the contract. -/
theorem rendering_never_panics_witness :
    negate_search demoParse "deck:foo" ≠ Except.ok none ∧
    concatenate_searches demoParse 0 ["deck:foo", ""] ≠ Except.ok none :=
  rendering_never_panics demoParse demoParse_contract "deck:foo" 0
    ["deck:foo", ""]

end AnkiSearchWriter
